import Mathlib

/-!
Shallow embedding of xen/arch/arm/altp2m.c (the ARM alternate-p2m view
table lifecycle and binding manager) and proofs about its per-guest
slot-table, binding, and lifecycle operations.

Modelling conventions:
- The fixed array d->arch.altp2m_p2m[MAX_ALTP2M] is a Lean list
  altp2m_p2m whose length plays the role of MAX_ALTP2M.
- A slot entry is an Option P2mDomain: none models a NULL pointer,
  some p2m an owned view object.
- v->arch.ap2m_idx is an Option Nat: none models INVALID_ALTP2M
  (the sentinel is outside [0, MAX_ALTP2M), so the C comparison
  idx == v->arch.ap2m_idx with idx < MAX_ALTP2M corresponds exactly
  to ap2m_idx = some idx).
- atomic_t active_vcpus is an Int.
- Locking (altp2m_lock/unlock) and quiescence (domain_pause_except_self,
  vcpu_pause) are no-ops in this sequential embedding; the embedded
  functions model the state transformation of one whole call.
- A function that can hit a BUG_ON, a failed ASSERT, or a NULL-pointer
  dereference returns an Option; none is the crash outcome.
- p2m_teardown_one, xfree and slot clearing are recorded as trace
  events (Ev) by the teardown paths so that their order is provable.
-/

namespace AltP2M

/-- Errno value EINVAL (invalid argument), as used by rc = -EINVAL. -/
def EINVAL : Int := 22

/-- Errno value ENOMEM (out of memory), as used by rc = -ENOMEM. -/
def ENOMEM : Int := 12

/-- Errno value EBUSY (device or resource busy), as used by rc = -EBUSY. -/
def EBUSY : Int := 16

/-- Errno value ENOENT (no such entry), the conventional not-found
errno; it does not occur in altp2m.c, and is used here only to state
claims that speak of a distinct NotFound error kind. -/
def ENOENT : Int := 2

/-- The fields of struct p2m_domain that this subsystem reads or
writes: the p2m class tag set by altp2m_init_helper and the atomic
active_vcpus binding counter. -/
structure P2mDomain where
  p2m_class_alternate : Bool
  active_vcpus : Int
deriving DecidableEq, Repr

/-- The per-vcpu state this subsystem touches: v->arch.ap2m_idx.
none stands for INVALID_ALTP2M. -/
structure Vcpu where
  ap2m_idx : Option Nat
deriving DecidableEq, Repr

/-- The per-domain state this subsystem touches: the altp2m_p2m slot
array (its length is MAX_ALTP2M), the altp2m_active flag, and the
domain's vcpu list iterated by for_each_vcpu. -/
structure Domain where
  altp2m_p2m : List (Option P2mDomain)
  altp2m_active : Bool
  vcpus : List Vcpu
deriving DecidableEq, Repr

/-- Reading d->arch.altp2m_p2m[i] (in-bounds callers only; an
out-of-bounds read yields none, which no embedded caller performs). -/
def slotAt (d : Domain) (i : Nat) : Option P2mDomain :=
  d.altp2m_p2m.getD i none

/-- Trace events emitted by the teardown paths, in source order:
p2m_teardown_one(p2m), xfree(p2m), and the write
d->arch.altp2m_p2m[i] = NULL. -/
inductive Ev where
  | teardown_view (i : Nat)
  | free_view (i : Nat)
  | clear_slot (i : Nat)
deriving DecidableEq, Repr

/-- altp2m_get_altp2m(v): returns NULL (some none) when
ap2m_idx == INVALID_ALTP2M; BUG_ON(idx >= MAX_ALTP2M) is the crash
outcome (none); otherwise returns the slot pointer
d->arch.altp2m_p2m[idx], which may itself be NULL. -/
def altp2m_get_altp2m (d : Domain) (v : Vcpu) : Option (Option P2mDomain) :=
  match v.ap2m_idx with
  | none => some none
  | some idx =>
      if idx < d.altp2m_p2m.length then some (slotAt d idx)
      else none

/-- Dereferencing write atomic_add(delta, &altp2m_get_altp2m(v)->active_vcpus):
crashes (none) when the looked-up pointer is NULL (unbound vcpu or empty
slot) or when the BUG_ON in altp2m_get_altp2m fires; otherwise adds
delta to the counter of the slot the vcpu is bound to. This models the
atomic_dec and atomic_inc calls of altp2m.c. -/
def atomic_add_at (d : Domain) (v : Vcpu) (delta : Int) : Option Domain :=
  match v.ap2m_idx with
  | none => none
  | some idx =>
      if idx < d.altp2m_p2m.length then
        match slotAt d idx with
        | none => none
        | some p2m =>
            some { d with
              altp2m_p2m := d.altp2m_p2m.set idx
                (some { p2m with active_vcpus := p2m.active_vcpus + delta }) }
      else none

/-- The for_each_vcpu loop body of altp2m_switch_domain_altp2m_by_id:
skip vcpus already bound to idx; for the rest, atomic_dec through the
old view pointer, write ap2m_idx = idx, atomic_inc through the new
view pointer. Returns the rebound vcpu list and updated slots, or none
if a dereference crashed. -/
def switch_loop (idx : Nat) : List Vcpu → Domain → Option (List Vcpu × Domain)
  | [], d => some ([], d)
  | v :: vs, d =>
      if v.ap2m_idx = some idx then
        (switch_loop idx vs d).map (fun r => (v :: r.1, r.2))
      else
        match atomic_add_at d v (-1) with
        | none => none
        | some d1 =>
            match atomic_add_at d1 { v with ap2m_idx := some idx } 1 with
            | none => none
            | some d2 =>
                (switch_loop idx vs d2).map
                  (fun r => ({ v with ap2m_idx := some idx } :: r.1, r.2))

/-- altp2m_switch_domain_altp2m_by_id(d, idx): rc starts at -EINVAL;
rejects idx >= MAX_ALTP2M; under pause + lock, if the target slot is
non-NULL, rebinds every vcpu not already on idx and sets rc = 0;
otherwise rc stays -EINVAL. none is the crash outcome of the rebind
loop. -/
def altp2m_switch_domain_altp2m_by_id (d : Domain) (idx : Nat) :
    Option (Int × Domain) :=
  if d.altp2m_p2m.length ≤ idx then some (-EINVAL, d)
  else
    match slotAt d idx with
    | some _ =>
        (switch_loop idx d.vcpus d).map
          (fun r => (0, { r.2 with vcpus := r.1 }))
    | none => some (-EINVAL, d)

/-- altp2m_vcpu_reset(v): v->arch.ap2m_idx = INVALID_ALTP2M. -/
def altp2m_vcpu_reset (v : Vcpu) : Vcpu :=
  { v with ap2m_idx := none }

/-- altp2m_vcpu_destroy(v): under vcpu pause, if altp2m_get_altp2m(v)
is non-NULL, atomic_dec its active_vcpus; then altp2m_vcpu_reset(v).
none is the BUG_ON crash inside altp2m_get_altp2m. -/
def altp2m_vcpu_destroy (d : Domain) (v : Vcpu) : Option (Domain × Vcpu) :=
  match altp2m_get_altp2m d v with
  | none => none
  | some none => some (d, altp2m_vcpu_reset v)
  | some (some _) =>
      (atomic_add_at d v (-1)).map (fun d1 => (d1, altp2m_vcpu_reset v))

/-- Outcomes of the external collaborators used by altp2m_init_helper:
whether xzalloc(struct p2m_domain) succeeds, and the return code of
p2m_init_one (0 on success). -/
structure Env where
  xzalloc_ok : Bool
  p2m_init_rc : Int
deriving DecidableEq, Repr

/-- altp2m_init_helper(d, idx): ASSERT(p2m == NULL) (crash outcome
none when the slot is occupied); xzalloc a zeroed view, set
p2m_class = p2m_alternate, run p2m_init_one; on failure xfree the view
and write NULL over the slot; on success install the view. -/
def altp2m_init_helper (env : Env) (d : Domain) (idx : Nat) :
    Option (Int × Domain) :=
  match slotAt d idx with
  | some _ => none
  | none =>
      if env.xzalloc_ok = false then some (-ENOMEM, d)
      else if env.p2m_init_rc ≠ 0 then
        some (env.p2m_init_rc, { d with altp2m_p2m := d.altp2m_p2m.set idx none })
      else
        some (0, { d with
          altp2m_p2m := d.altp2m_p2m.set idx
            (some { p2m_class_alternate := true, active_vcpus := 0 }) })

/-- altp2m_init_by_id(d, idx): rc starts at -EINVAL; rejects
idx >= MAX_ALTP2M; under lock, calls altp2m_init_helper only when the
slot is NULL, otherwise returns -EINVAL with nothing changed. -/
def altp2m_init_by_id (env : Env) (d : Domain) (idx : Nat) :
    Option (Int × Domain) :=
  if d.altp2m_p2m.length ≤ idx then some (-EINVAL, d)
  else
    match slotAt d idx with
    | none => altp2m_init_helper env d idx
    | some _ => some (-EINVAL, d)

/-- The scan loop of altp2m_init_next_available from position i: skip
occupied slots; at the first empty slot run altp2m_init_helper, write
the out-parameter *idx = i and break; if the scan runs off the table,
rc stays -EINVAL and *idx is never written (the Option Nat component
is the value written to *idx, none when untouched). -/
def next_available_from (env : Env) (d : Domain) (i : Nat) :
    Option (Int × Option Nat × Domain) :=
  if _h : i < d.altp2m_p2m.length then
    match slotAt d i with
    | some _ => next_available_from env d (i + 1)
    | none => (altp2m_init_helper env d i).map (fun r => (r.1, some i, r.2))
  else some (-EINVAL, none, d)
termination_by d.altp2m_p2m.length - i

/-- altp2m_init_next_available(d, idx): under lock, scan the table
from index 0. -/
def altp2m_init_next_available (env : Env) (d : Domain) :
    Option (Int × Option Nat × Domain) :=
  next_available_from env d 0

/-- altp2m_init(d): spin_lock_init and altp2m_active = false; always
returns 0. -/
def altp2m_init (d : Domain) : Int × Domain :=
  (0, { d with altp2m_active := false })

/-- The slot loop of altp2m_flush, carried with the absolute index of
the head slot: skip NULL slots; for each occupied slot
ASSERT(!atomic_read(&p2m->active_vcpus)) (crash outcome none),
then p2m_teardown_one, xfree, and clear the slot, recording the three
events in that source order. -/
def flush_loop : List (Option P2mDomain) → Nat →
    Option (List (Option P2mDomain) × List Ev)
  | [], _ => some ([], [])
  | none :: rest, i => (flush_loop rest (i + 1)).map (fun r => (none :: r.1, r.2))
  | some p2m :: rest, i =>
      if p2m.active_vcpus = 0 then
        (flush_loop rest (i + 1)).map
          (fun r => (none :: r.1,
            Ev.teardown_view i :: Ev.free_view i :: Ev.clear_slot i :: r.2))
      else none

/-- altp2m_flush(d): ASSERT(!altp2m_active(d)) (crash outcome none);
under lock, tear down, free and clear every occupied slot. -/
def altp2m_flush (d : Domain) : Option (Domain × List Ev) :=
  if d.altp2m_active then none
  else
    (flush_loop d.altp2m_p2m 0).map
      (fun r => ({ d with altp2m_p2m := r.1 }, r.2))

/-- altp2m_destroy_by_id(d, idx): rc starts at -EBUSY; rejects
idx == 0 and idx >= MAX_ALTP2M; under pause + lock, if the slot is
occupied and _atomic_read(p2m->active_vcpus) is zero, p2m_teardown_one,
xfree, clear the slot (events in that source order) and rc = 0;
otherwise rc stays -EBUSY and nothing changes. -/
def altp2m_destroy_by_id (d : Domain) (idx : Nat) : Int × Domain × List Ev :=
  if idx = 0 ∨ d.altp2m_p2m.length ≤ idx then (-EBUSY, d, [])
  else
    match slotAt d idx with
    | none => (-EBUSY, d, [])
    | some p2m =>
        if p2m.active_vcpus = 0 then
          (0, { d with altp2m_p2m := d.altp2m_p2m.set idx none },
           [Ev.teardown_view idx, Ev.free_view idx, Ev.clear_slot idx])
        else (-EBUSY, d, [])

/-- The slot loop of altp2m_teardown, carried with the absolute index
of the head slot: for each occupied slot, p2m_teardown_one and xfree,
in that order; the slot entry itself is never cleared (and no lock is
taken). The domain state is unchanged; only the event trace is
produced. -/
def teardown_loop : List (Option P2mDomain) → Nat → List Ev
  | [], _ => []
  | none :: rest, i => teardown_loop rest (i + 1)
  | some _ :: rest, i =>
      Ev.teardown_view i :: Ev.free_view i :: teardown_loop rest (i + 1)

/-- altp2m_teardown(d): unconditionally tear down and free every
occupied slot, leaving the slot entries in place. -/
def altp2m_teardown (d : Domain) : List Ev :=
  teardown_loop d.altp2m_p2m 0

/-- Number of vcpus of d currently bound to slot i. -/
def vcpusOn (d : Domain) (i : Nat) : Nat :=
  d.vcpus.countP (fun v => v.ap2m_idx == some i)

/-- The counter of slot i, read as 0 for an empty slot. -/
def bindings (d : Domain) (i : Nat) : Int :=
  (slotAt d i).elim 0 (fun p2m => p2m.active_vcpus)

/-- Invariant I2: for every occupied slot i, the number of vcpus bound
to i equals that slot's active_vcpus counter. -/
def I2 (d : Domain) : Prop :=
  ∀ i < d.altp2m_p2m.length,
    (slotAt d i).isSome = true → (vcpusOn d i : Int) = bindings d i

instance (d : Domain) : Decidable (I2 d) := by
  unfold I2; infer_instance

/-- A vcpu binding is valid when ap2m_idx is a real index of an
occupied slot; this is the precondition under which the rebind loop of
altp2m_switch_domain_altp2m_by_id never dereferences NULL. -/
def validBinding (d : Domain) (v : Vcpu) : Bool :=
  match v.ap2m_idx with
  | none => false
  | some j => (slotAt d j).isSome

/-! Helper lemmas about slot reads and updates. -/

theorem slotAt_some_lt {d : Domain} {i : Nat} {p : P2mDomain}
    (h : slotAt d i = some p) : i < d.altp2m_p2m.length := by
  by_contra hge
  rw [slotAt, List.getD_eq_default _ _ (Nat.le_of_not_lt hge)] at h
  exact Option.noConfusion h

theorem slotAt_isSome_lt {d : Domain} {i : Nat}
    (h : (slotAt d i).isSome = true) : i < d.altp2m_p2m.length := by
  obtain ⟨p, hp⟩ := Option.isSome_iff_exists.mp h
  exact slotAt_some_lt hp

theorem slotAt_set_self (d : Domain) (i : Nat) (x : Option P2mDomain)
    (h : i < d.altp2m_p2m.length) :
    slotAt { d with altp2m_p2m := d.altp2m_p2m.set i x } i = x := by
  simp [slotAt, List.getD_eq_getElem?_getD, List.getElem?_set_self h]

theorem slotAt_set_ne (d : Domain) {i j : Nat} (x : Option P2mDomain)
    (h : i ≠ j) :
    slotAt { d with altp2m_p2m := d.altp2m_p2m.set i x } j = slotAt d j := by
  simp [slotAt, List.getD_eq_getElem?_getD, List.getElem?_set_ne h]

/-! Equation lemmas for the four return paths of altp2m_destroy_by_id. -/

theorem destroy_eq_invalid (d : Domain) (idx : Nat)
    (h : idx = 0 ∨ d.altp2m_p2m.length ≤ idx) :
    altp2m_destroy_by_id d idx = (-EBUSY, d, []) := by
  unfold altp2m_destroy_by_id
  rw [if_pos h]

theorem destroy_eq_empty (d : Domain) (idx : Nat)
    (h1 : ¬(idx = 0 ∨ d.altp2m_p2m.length ≤ idx)) (h2 : slotAt d idx = none) :
    altp2m_destroy_by_id d idx = (-EBUSY, d, []) := by
  unfold altp2m_destroy_by_id
  rw [if_neg h1, h2]

theorem destroy_eq_busy (d : Domain) (idx : Nat) (p : P2mDomain)
    (h1 : ¬(idx = 0 ∨ d.altp2m_p2m.length ≤ idx)) (h2 : slotAt d idx = some p)
    (h3 : ¬ p.active_vcpus = 0) :
    altp2m_destroy_by_id d idx = (-EBUSY, d, []) := by
  unfold altp2m_destroy_by_id
  rw [if_neg h1, h2]
  simp [h3]

theorem destroy_eq_success (d : Domain) (idx : Nat) (p : P2mDomain)
    (h1 : ¬(idx = 0 ∨ d.altp2m_p2m.length ≤ idx)) (h2 : slotAt d idx = some p)
    (h3 : p.active_vcpus = 0) :
    altp2m_destroy_by_id d idx =
      (0, { d with altp2m_p2m := d.altp2m_p2m.set idx none },
       [Ev.teardown_view idx, Ev.free_view idx, Ev.clear_slot idx]) := by
  unfold altp2m_destroy_by_id
  rw [if_neg h1, h2]
  simp [h3]

/-! Example states used by witnesses and counterexamples. All have a
small table; the table length stands for MAX_ALTP2M. -/

/-- View with a zero binding counter. -/
def viewZero : P2mDomain := { p2m_class_alternate := true, active_vcpus := 0 }

/-- View with two active bindings. -/
def viewTwo : P2mDomain := { p2m_class_alternate := true, active_vcpus := 2 }

/-- Guest with slots 0 and 1 occupied (slot 1 busy) and one vcpu bound
to slot 1. -/
def exBusy : Domain :=
  { altp2m_p2m := [some { p2m_class_alternate := true, active_vcpus := 1 },
                   some { p2m_class_alternate := true, active_vcpus := 1 }],
    altp2m_active := true,
    vcpus := [{ ap2m_idx := some 1 }] }

/-- Guest with both slots occupied and counters zero, no vcpus. -/
def exIdle : Domain :=
  { altp2m_p2m := [some viewZero, some viewZero],
    altp2m_active := false,
    vcpus := [] }

/-- Guest whose slot 1 is empty. -/
def exHole : Domain :=
  { altp2m_p2m := [some viewZero, none],
    altp2m_active := false,
    vcpus := [{ ap2m_idx := some 0 }] }

/-! Trace facts about the teardown paths. -/

theorem flush_loop_sublist :
    ∀ (l : List (Option P2mDomain)) (k : Nat) (s : List (Option P2mDomain))
      (tr : List Ev), flush_loop l k = some (s, tr) →
      ∀ (n : Nat) (p : P2mDomain), l.getD n none = some p →
        List.Sublist
          [Ev.teardown_view (k + n), Ev.free_view (k + n), Ev.clear_slot (k + n)]
          tr
  | [], k, s, tr, h, n, p, hn => by
      rw [List.getD_nil] at hn
      exact Option.noConfusion hn
  | none :: rest, k, s, tr, h, n, p, hn => by
      rw [flush_loop, Option.map_eq_some'] at h
      obtain ⟨r, hr, heq⟩ := h
      obtain ⟨-, rfl⟩ := Prod.mk.injEq .. ▸ And.intro (congrArg Prod.fst heq) (congrArg Prod.snd heq)
      match n with
      | 0 => rw [List.getD_cons_zero] at hn; exact Option.noConfusion hn
      | Nat.succ m =>
          rw [List.getD_cons_succ] at hn
          have ih := flush_loop_sublist rest (k + 1) r.1 r.2 hr m p hn
          have harith : k + 1 + m = k + (m + 1) := by omega
          rwa [harith] at ih
  | some p2m :: rest, k, s, tr, h, n, p, hn => by
      rw [flush_loop] at h
      by_cases hz : p2m.active_vcpus = 0
      · rw [if_pos hz, Option.map_eq_some'] at h
        obtain ⟨r, hr, heq⟩ := h
        have htr : tr = Ev.teardown_view k :: Ev.free_view k ::
            Ev.clear_slot k :: r.2 := (congrArg Prod.snd heq).symm
        subst htr
        match n with
        | 0 =>
            rw [List.getD_cons_zero] at hn
            have hp : p = p2m := (Option.some.injEq .. ▸ hn).symm
            subst hp
            rw [Nat.add_zero]
            exact List.sublist_append_left
              [Ev.teardown_view k, Ev.free_view k, Ev.clear_slot k] r.2
        | Nat.succ m =>
            rw [List.getD_cons_succ] at hn
            have ih := flush_loop_sublist rest (k + 1) r.1 r.2 hr m p hn
            have harith : k + 1 + m = k + (m + 1) := by omega
            rw [harith] at ih
            exact ((ih.cons _).cons _).cons _
      · rw [if_neg hz] at h
        exact Option.noConfusion h

theorem flush_loop_slots :
    ∀ (l : List (Option P2mDomain)) (k : Nat) (s : List (Option P2mDomain))
      (tr : List Ev), flush_loop l k = some (s, tr) →
      s = List.replicate l.length none
  | [], k, s, tr, h => by
      rw [flush_loop] at h
      exact (congrArg Prod.fst (Option.some.injEq .. ▸ h)).symm
  | none :: rest, k, s, tr, h => by
      rw [flush_loop, Option.map_eq_some'] at h
      obtain ⟨r, hr, heq⟩ := h
      have hs : s = none :: r.1 := (congrArg Prod.fst heq).symm
      subst hs
      rw [List.length_cons, List.replicate_succ]
      exact congrArg (none :: ·) (flush_loop_slots rest (k + 1) r.1 r.2 hr)
  | some p2m :: rest, k, s, tr, h => by
      rw [flush_loop] at h
      by_cases hz : p2m.active_vcpus = 0
      · rw [if_pos hz, Option.map_eq_some'] at h
        obtain ⟨r, hr, heq⟩ := h
        have hs : s = none :: r.1 := (congrArg Prod.fst heq).symm
        subst hs
        rw [List.length_cons, List.replicate_succ]
        exact congrArg (none :: ·) (flush_loop_slots rest (k + 1) r.1 r.2 hr)
      · rw [if_neg hz] at h
        exact Option.noConfusion h

theorem flush_loop_isSome_iff :
    ∀ (l : List (Option P2mDomain)) (k : Nat),
      (flush_loop l k).isSome = true ↔
        ∀ p : P2mDomain, some p ∈ l → p.active_vcpus = 0
  | [], k => by
      rw [flush_loop]
      simp
  | none :: rest, k => by
      rw [flush_loop]
      simpa using flush_loop_isSome_iff rest (k + 1)
  | some p2m :: rest, k => by
      rw [flush_loop]
      by_cases hz : p2m.active_vcpus = 0
      · rw [if_pos hz]
        have ih := flush_loop_isSome_iff rest (k + 1)
        rw [Option.isSome_map']
        constructor
        · intro h p hp
          rcases List.mem_cons.mp hp with hp | hp
          · exact (Option.some.injEq .. ▸ hp) ▸ hz
          · exact (ih.mp h) p hp
        · intro h
          exact ih.mpr (fun p hp => h p (List.mem_cons_of_mem _ hp))
      · rw [if_neg hz]
        simp only [Option.isSome_none, Bool.false_eq_true, false_iff, not_forall]
        exact ⟨p2m, by simp, hz⟩

theorem teardown_loop_sublist :
    ∀ (l : List (Option P2mDomain)) (k : Nat) (n : Nat) (p : P2mDomain),
      l.getD n none = some p →
      List.Sublist [Ev.teardown_view (k + n), Ev.free_view (k + n)]
        (teardown_loop l k)
  | [], k, n, p, hn => by
      rw [List.getD_nil] at hn
      exact Option.noConfusion hn
  | none :: rest, k, n, p, hn => by
      match n with
      | 0 => rw [List.getD_cons_zero] at hn; exact Option.noConfusion hn
      | Nat.succ m =>
          rw [List.getD_cons_succ] at hn
          have ih := teardown_loop_sublist rest (k + 1) m p hn
          have harith : k + 1 + m = k + (m + 1) := by omega
          rw [harith] at ih
          rw [teardown_loop]
          exact ih
  | some p2m :: rest, k, n, p, hn => by
      rw [teardown_loop]
      match n with
      | 0 =>
          rw [Nat.add_zero]
          exact List.sublist_append_left [Ev.teardown_view k, Ev.free_view k]
            (teardown_loop rest (k + 1))
      | Nat.succ m =>
          rw [List.getD_cons_succ] at hn
          have ih := teardown_loop_sublist rest (k + 1) m p hn
          have harith : k + 1 + m = k + (m + 1) := by omega
          rw [harith] at ih
          exact (ih.cons _).cons _

theorem teardown_loop_no_clear :
    ∀ (l : List (Option P2mDomain)) (k : Nat) (i : Nat),
      Ev.clear_slot i ∉ teardown_loop l k
  | [], k, i => by rw [teardown_loop]; exact List.not_mem_nil _
  | none :: rest, k, i => by
      rw [teardown_loop]
      exact teardown_loop_no_clear rest (k + 1) i
  | some p2m :: rest, k, i => by
      rw [teardown_loop]
      intro hmem
      rcases List.mem_cons.mp hmem with h | hmem
      · exact Ev.noConfusion h
      rcases List.mem_cons.mp hmem with h | hmem
      · exact Ev.noConfusion h
      exact teardown_loop_no_clear rest (k + 1) i hmem

/-- C5. The claim states that every teardown path removes the view
from the slot table first, then tears down its internal state, then
frees it. The code does the opposite: altp2m_destroy_by_id (shown
here, succeeding on slot 1 of an idle guest) runs p2m_teardown_one,
then xfree, and only then clears the table slot, so the clear-first
order claimed never occurs in its trace. -/
theorem c5_teardown_order_counterexample :
    (altp2m_destroy_by_id exIdle 1).1 = 0 ∧
    ¬ List.Sublist [Ev.clear_slot 1, Ev.teardown_view 1, Ev.free_view 1]
        (altp2m_destroy_by_id exIdle 1).2.2 := by decide

/-- C5 (amended). Every teardown path tears down the view's internal
state first and frees its memory second; the table slot is cleared
last, after the free, by altp2m_destroy_by_id and altp2m_flush (both
hold the table lock across the whole sequence), while altp2m_teardown
never clears the slots at all. -/
theorem c5_teardown_order_amended :
    (∀ (d : Domain) (idx : Nat), (altp2m_destroy_by_id d idx).1 = 0 →
      (altp2m_destroy_by_id d idx).2.2 =
        [Ev.teardown_view idx, Ev.free_view idx, Ev.clear_slot idx])
  ∧ (∀ (d d' : Domain) (tr : List Ev), altp2m_flush d = some (d', tr) →
      ∀ (i : Nat) (p : P2mDomain), slotAt d i = some p →
        List.Sublist [Ev.teardown_view i, Ev.free_view i, Ev.clear_slot i] tr)
  ∧ (∀ (d : Domain) (i : Nat) (p : P2mDomain), slotAt d i = some p →
      List.Sublist [Ev.teardown_view i, Ev.free_view i] (altp2m_teardown d))
  ∧ (∀ (d : Domain) (i : Nat), Ev.clear_slot i ∉ altp2m_teardown d) := by
  refine ⟨?_, ?_, ?_, ?_⟩
  · intro d idx h
    by_cases h1 : idx = 0 ∨ d.altp2m_p2m.length ≤ idx
    · rw [destroy_eq_invalid d idx h1] at h
      exact absurd h (by norm_num [EBUSY])
    · cases hs : slotAt d idx with
      | none =>
          rw [destroy_eq_empty d idx h1 hs] at h
          exact absurd h (by norm_num [EBUSY])
      | some p =>
          by_cases hz : p.active_vcpus = 0
          · rw [destroy_eq_success d idx p h1 hs hz]
          · rw [destroy_eq_busy d idx p h1 hs hz] at h
            exact absurd h (by norm_num [EBUSY])
  · intro d d' tr h i p hp
    unfold altp2m_flush at h
    by_cases ha : d.altp2m_active
    · rw [if_pos ha] at h; exact Option.noConfusion h
    · rw [if_neg ha, Option.map_eq_some'] at h
      obtain ⟨r, hr, heq⟩ := h
      have htr : tr = r.2 := (congrArg Prod.snd heq).symm
      subst htr
      have := flush_loop_sublist d.altp2m_p2m 0 r.1 r.2 hr i p hp
      simpa using this
  · intro d i p hp
    have := teardown_loop_sublist d.altp2m_p2m 0 i p hp
    simpa [altp2m_teardown] using this
  · intro d i
    exact teardown_loop_no_clear d.altp2m_p2m 0 i

/-- Witness for C5 (amended): the successful destroy of slot 1 of the
idle guest emits teardown, free, clear in that order. -/
theorem c5_teardown_order_amended_witness :
    (altp2m_destroy_by_id exIdle 1).2.2 =
      [Ev.teardown_view 1, Ev.free_view 1, Ev.clear_slot 1] :=
  c5_teardown_order_amended.1 exIdle 1 (by decide)

/-- C3. The claim states that altp2m_destroy_by_id returns the
InvalidArgument error kind (-EINVAL) for index 0 and for indices past
the table. It does not: rc is initialized to -EBUSY and the early
rejection returns it unchanged, so both cases yield -EBUSY, which is
not -EINVAL. Shown here on a guest whose slot 1 is busy. -/
theorem c3_destroy_invalid_counterexample :
    (altp2m_destroy_by_id exBusy 0).1 = -EBUSY ∧
    (altp2m_destroy_by_id exBusy 5).1 = -EBUSY ∧
    (-EBUSY : Int) ≠ -EINVAL := by decide

/-- C3 (amended). altp2m_destroy_by_id rejects index 0 (regardless of
binding state or occupancy) and any index at or past MAX_ALTP2M with
the Busy error code -EBUSY (not -EINVAL), leaving the domain unchanged
and performing no teardown step. -/
theorem c3_destroy_invalid_amended (d : Domain) (idx : Nat)
    (h : idx = 0 ∨ d.altp2m_p2m.length ≤ idx) :
    altp2m_destroy_by_id d idx = (-EBUSY, d, []) := by
  unfold altp2m_destroy_by_id
  rw [if_pos h]

/-- Witness for C3 (amended) at index 0 of a busy guest. -/
theorem c3_destroy_invalid_amended_witness :
    altp2m_destroy_by_id exBusy 0 = (-EBUSY, exBusy, []) :=
  c3_destroy_invalid_amended exBusy 0 (Or.inl rfl)

/-- C4. The claim states that altp2m_switch_domain_altp2m_by_id with an
in-range but empty target slot returns a NotFound error kind. The code
has no such kind: rc is initialized to -EINVAL and is returned
unchanged when the slot test fails, so the caller sees -EINVAL — the
same value as the out-of-range rejection — not -ENOENT. The
no-mutation part of the claim does hold (the domain is returned
unchanged). -/
theorem c4_switch_notfound_counterexample :
    altp2m_switch_domain_altp2m_by_id exHole 1 = some (-EINVAL, exHole) ∧
    (-EINVAL : Int) ≠ -ENOENT := by decide

/-- C4 (amended). When the target index is in range but the slot is
empty, altp2m_switch_domain_altp2m_by_id returns -EINVAL (the same
code as an out-of-range index, there is no distinct not-found code)
and the domain is unchanged: no vcpu binding and no counter has been
touched. -/
theorem c4_switch_empty_amended (d : Domain) (idx : Nat)
    (h1 : idx < d.altp2m_p2m.length) (h2 : slotAt d idx = none) :
    altp2m_switch_domain_altp2m_by_id d idx = some (-EINVAL, d) := by
  unfold altp2m_switch_domain_altp2m_by_id
  rw [if_neg (Nat.not_le.mpr h1), h2]

/-- Witness for C4 (amended) at the empty slot 1 of exHole. -/
theorem c4_switch_empty_amended_witness :
    altp2m_switch_domain_altp2m_by_id exHole 1 = some (-EINVAL, exHole) :=
  c4_switch_empty_amended exHole 1 (by decide) (by decide)

/-! More helper lemmas. -/

theorem slotAt_eq_getElem (d : Domain) (i : Nat) (h : i < d.altp2m_p2m.length) :
    slotAt d i = d.altp2m_p2m[i] := by
  rw [slotAt, List.getD_eq_getElem?_getD, List.getElem?_eq_getElem h]
  rfl

theorem mem_iff_slotAt (d : Domain) (P : P2mDomain → Prop) :
    (∀ p, some p ∈ d.altp2m_p2m → P p) ↔
    (∀ i < d.altp2m_p2m.length, ∀ p, slotAt d i = some p → P p) := by
  constructor
  · intro h i hi p hp
    rw [slotAt_eq_getElem d i hi] at hp
    exact h p (List.mem_iff_getElem.mpr ⟨i, hi, hp⟩)
  · intro h p hp
    obtain ⟨n, hn, hget⟩ := List.mem_iff_getElem.mp hp
    exact h n hn p (by rw [slotAt_eq_getElem d n hn, hget])

theorem getD_replicate_none (n i : Nat) :
    (List.replicate n (none : Option P2mDomain)).getD i none = none := by
  rw [List.getD_eq_getElem?_getD, List.getElem?_replicate]
  split <;> rfl

/-- C2. For an index with 0 < idx < MAX_ALTP2M, altp2m_destroy_by_id
succeeds exactly when the slot is occupied and its active_vcpus
counter is zero; under invariant I2 it therefore never succeeds while
some vcpu is still bound to the slot; and on any failure the domain
state is unchanged and no teardown event is emitted. -/
theorem c2_destroy_success_iff (d : Domain) (idx : Nat)
    (h0 : 0 < idx) (h1 : idx < d.altp2m_p2m.length) :
    ((altp2m_destroy_by_id d idx).1 = 0 ↔
      ∃ p, slotAt d idx = some p ∧ p.active_vcpus = 0)
  ∧ (I2 d → (∃ v ∈ d.vcpus, v.ap2m_idx = some idx) →
      (altp2m_destroy_by_id d idx).1 ≠ 0)
  ∧ ((altp2m_destroy_by_id d idx).1 ≠ 0 →
      (altp2m_destroy_by_id d idx).2.1 = d ∧
      (altp2m_destroy_by_id d idx).2.2 = []) := by
  have hng : ¬(idx = 0 ∨ d.altp2m_p2m.length ≤ idx) := by
    rintro (rfl | hle)
    · exact Nat.lt_irrefl 0 h0
    · exact absurd h1 (Nat.not_lt.mpr hle)
  refine ⟨⟨?_, ?_⟩, ?_, ?_⟩
  · intro h
    cases hs : slotAt d idx with
    | none =>
        rw [destroy_eq_empty d idx hng hs] at h
        exact absurd h (by norm_num [EBUSY])
    | some p =>
        by_cases hz : p.active_vcpus = 0
        · exact ⟨p, rfl, hz⟩
        · rw [destroy_eq_busy d idx p hng hs hz] at h
          exact absurd h (by norm_num [EBUSY])
  · rintro ⟨p, hs, hz⟩
    rw [destroy_eq_success d idx p hng hs hz]
  · rintro hI2 ⟨v, hv, hvi⟩ h
    cases hs : slotAt d idx with
    | none =>
        rw [destroy_eq_empty d idx hng hs] at h
        exact absurd h (by norm_num [EBUSY])
    | some p =>
        by_cases hz : p.active_vcpus = 0
        · have hocc : (slotAt d idx).isSome = true := by rw [hs]; rfl
          have hcnt := hI2 idx h1 hocc
          have hbind : bindings d idx = 0 := by
            rw [bindings, hs]
            exact hz
          have hpos : 0 < vcpusOn d idx := by
            rw [vcpusOn]
            refine List.countP_pos_iff.mpr ⟨v, hv, ?_⟩
            simp [hvi]
          rw [hbind] at hcnt
          omega
        · rw [destroy_eq_busy d idx p hng hs hz] at h
          exact absurd h (by norm_num [EBUSY])
  · intro h
    cases hs : slotAt d idx with
    | none => rw [destroy_eq_empty d idx hng hs]; exact ⟨rfl, rfl⟩
    | some p =>
        by_cases hz : p.active_vcpus = 0
        · rw [destroy_eq_success d idx p hng hs hz] at h
          exact absurd rfl h
        · rw [destroy_eq_busy d idx p hng hs hz]; exact ⟨rfl, rfl⟩

/-- Witness for C2 on the idle guest: destroying slot 1, whose counter
is zero, succeeds. -/
theorem c2_destroy_success_iff_witness :
    ((altp2m_destroy_by_id exIdle 1).1 = 0 ↔
      ∃ p, slotAt exIdle 1 = some p ∧ p.active_vcpus = 0)
  ∧ (I2 exIdle → (∃ v ∈ exIdle.vcpus, v.ap2m_idx = some 1) →
      (altp2m_destroy_by_id exIdle 1).1 ≠ 0)
  ∧ ((altp2m_destroy_by_id exIdle 1).1 ≠ 0 →
      (altp2m_destroy_by_id exIdle 1).2.1 = exIdle ∧
      (altp2m_destroy_by_id exIdle 1).2.2 = []) :=
  c2_destroy_success_iff exIdle 1 (by decide) (by decide)

/-- C6. altp2m_init_by_id rejects an out-of-range index with -EINVAL
and changes nothing; when the slot is already occupied it returns
-EINVAL without touching the existing view; and when xzalloc or
p2m_init_one fails, the slot is left empty and the returned code is
-ENOMEM or the initializer's error, never success. -/
theorem c6_allocate_errors (env : Env) (d : Domain) (idx : Nat) :
    (d.altp2m_p2m.length ≤ idx →
      altp2m_init_by_id env d idx = some (-EINVAL, d))
  ∧ (∀ p, slotAt d idx = some p →
      altp2m_init_by_id env d idx = some (-EINVAL, d))
  ∧ (idx < d.altp2m_p2m.length → slotAt d idx = none →
      (env.xzalloc_ok = false ∨ env.p2m_init_rc ≠ 0) →
      ∃ rc d', altp2m_init_by_id env d idx = some (rc, d') ∧
        slotAt d' idx = none ∧
        (rc = -ENOMEM ∨ rc = env.p2m_init_rc) ∧ rc ≠ 0) := by
  refine ⟨?_, ?_, ?_⟩
  · intro h
    unfold altp2m_init_by_id
    rw [if_pos h]
  · intro p hp
    unfold altp2m_init_by_id
    by_cases h : d.altp2m_p2m.length ≤ idx
    · rw [if_pos h]
    · rw [if_neg h, hp]
  · intro hlt hempty herr
    have hbr : altp2m_init_by_id env d idx = altp2m_init_helper env d idx := by
      unfold altp2m_init_by_id
      rw [if_neg (Nat.not_le.mpr hlt), hempty]
    cases hx : env.xzalloc_ok with
    | false =>
        have hres : altp2m_init_helper env d idx = some (-ENOMEM, d) := by
          unfold altp2m_init_helper
          rw [hempty, hx]
          simp
        exact ⟨-ENOMEM, d, by rw [hbr, hres], hempty, Or.inl rfl,
          by norm_num [ENOMEM]⟩
    | true =>
        have hrc : env.p2m_init_rc ≠ 0 := by
          rcases herr with h | h
          · rw [hx] at h; exact absurd h (by simp)
          · exact h
        have hres : altp2m_init_helper env d idx =
            some (env.p2m_init_rc,
              { d with altp2m_p2m := d.altp2m_p2m.set idx none }) := by
          unfold altp2m_init_helper
          rw [hempty, hx]
          simp [hrc]
        refine ⟨env.p2m_init_rc,
          { d with altp2m_p2m := d.altp2m_p2m.set idx none },
          by rw [hbr, hres], ?_, Or.inr rfl, hrc⟩
        exact slotAt_set_self d idx none hlt

/-- Witness for C6: with a failing allocator, allocating at the empty
slot 1 of exHole reports -ENOMEM and the slot stays empty. -/
theorem c6_allocate_errors_witness :
    ∃ rc d', altp2m_init_by_id { xzalloc_ok := false, p2m_init_rc := 0 }
        exHole 1 = some (rc, d') ∧
      slotAt d' 1 = none ∧
      (rc = -ENOMEM ∨ rc = (0 : Int)) ∧ rc ≠ 0 :=
  (c6_allocate_errors { xzalloc_ok := false, p2m_init_rc := 0 } exHole 1).2.2
    (by decide) (by decide) (Or.inl rfl)

/-! Scan lemmas for altp2m_init_next_available. -/

theorem next_available_from_full (env : Env) (d : Domain) (i : Nat)
    (h : ∀ j, i ≤ j → j < d.altp2m_p2m.length → (slotAt d j).isSome = true) :
    next_available_from env d i = some (-EINVAL, none, d) := by
  rw [next_available_from]
  split
  case isTrue hlt =>
    obtain ⟨p, hp⟩ :=
      Option.isSome_iff_exists.mp (h i (Nat.le_refl i) hlt)
    rw [hp]
    exact next_available_from_full env d (i + 1)
      (fun j hj hjl => h j (by omega) hjl)
  case isFalse hge => rfl
termination_by d.altp2m_p2m.length - i

theorem next_available_from_firstEmpty (env : Env) (d : Domain) (s i : Nat)
    (hsi : s ≤ i) (hi : i < d.altp2m_p2m.length) (hempty : slotAt d i = none)
    (hocc : ∀ j, s ≤ j → j < i → (slotAt d j).isSome = true) :
    next_available_from env d s =
      (altp2m_init_helper env d i).map (fun r => (r.1, some i, r.2)) := by
  rw [next_available_from]
  have hslt : s < d.altp2m_p2m.length := Nat.lt_of_le_of_lt hsi hi
  rw [dif_pos hslt]
  by_cases hse : s = i
  · subst hse
    rw [hempty]
  · obtain ⟨p, hp⟩ := Option.isSome_iff_exists.mp
      (hocc s (Nat.le_refl s) (Nat.lt_of_le_of_ne hsi hse))
    rw [hp]
    exact next_available_from_firstEmpty env d (s + 1) i
      (by omega) hi hempty (fun j h1 h2 => hocc j (by omega) h2)
termination_by i - s

/-- C7. altp2m_init_next_available scans slots in increasing index
order: on a full table it returns -EINVAL (table exhaustion, not the
out-of-memory code) without writing the out-parameter or touching the
domain; otherwise it runs the allocate-and-init helper at the first
empty slot only, and on success returns 0 with that slot's index
written to the out-parameter. -/
theorem c7_next_available (env : Env) (d : Domain) :
    ((∀ j < d.altp2m_p2m.length, (slotAt d j).isSome = true) →
      altp2m_init_next_available env d = some (-EINVAL, none, d) ∧
      (-EINVAL : Int) ≠ -ENOMEM)
  ∧ (∀ i, i < d.altp2m_p2m.length → slotAt d i = none →
      (∀ j < i, (slotAt d j).isSome = true) →
      altp2m_init_next_available env d =
        (altp2m_init_helper env d i).map (fun r => (r.1, some i, r.2)) ∧
      (env.xzalloc_ok = true → env.p2m_init_rc = 0 →
        ∃ d', altp2m_init_next_available env d = some (0, some i, d'))) := by
  constructor
  · intro h
    refine ⟨?_, by norm_num [EINVAL, ENOMEM]⟩
    exact next_available_from_full env d 0 (fun j _ hj => h j hj)
  · intro i hi hempty hocc
    have hscan := next_available_from_firstEmpty env d 0 i
      (Nat.zero_le i) hi hempty (fun j _ hj => hocc j hj)
    refine ⟨hscan, ?_⟩
    intro hx hrc
    have hres : altp2m_init_helper env d i =
        some (0, { d with altp2m_p2m := (d.altp2m_p2m.set i
          (some { p2m_class_alternate := true, active_vcpus := 0 })) }) := by
      unfold altp2m_init_helper
      rw [hempty, hx]
      simp [hrc]
    refine ⟨{ d with altp2m_p2m := (d.altp2m_p2m.set i
      (some { p2m_class_alternate := true, active_vcpus := 0 })) }, ?_⟩
    rw [altp2m_init_next_available, hscan, hres]
    rfl

/-- Witness for C7: on exHole the scan skips occupied slot 0 and
allocates at slot 1. -/
theorem c7_next_available_witness :
    ∃ d', altp2m_init_next_available { xzalloc_ok := true, p2m_init_rc := 0 }
      exHole = some (0, some 1, d') :=
  ((c7_next_available { xzalloc_ok := true, p2m_init_rc := 0 } exHole).2 1
    (by decide) (by decide) (by decide)).2 rfl rfl

/-- C8. altp2m_flush completes only when the guest's altp2m is
inactive and every occupied slot's active_vcpus counter is zero (both
are asserted, so a violation is the crash outcome, not an error
return); on completion every slot of the table, slot 0 included, is
empty, and every previously occupied slot was torn down and freed. -/
theorem c8_flush (d : Domain) :
    ((altp2m_flush d).isSome = true ↔
      (d.altp2m_active = false ∧
        ∀ i < d.altp2m_p2m.length, ∀ p, slotAt d i = some p →
          p.active_vcpus = 0))
  ∧ (∀ (d' : Domain) (tr : List Ev), altp2m_flush d = some (d', tr) →
      (∀ i, slotAt d' i = none) ∧
      (∀ (i : Nat) (p : P2mDomain), slotAt d i = some p →
        Ev.teardown_view i ∈ tr ∧ Ev.free_view i ∈ tr)) := by
  constructor
  · by_cases ha : d.altp2m_active = true
    · rw [altp2m_flush, if_pos ha]
      simp [ha]
    · rw [altp2m_flush, if_neg ha, Option.isSome_map',
        flush_loop_isSome_iff, Bool.not_eq_true] at *
      rw [ha]
      simp only [true_and]
      exact mem_iff_slotAt d (fun p => p.active_vcpus = 0)
  · intro d' tr h
    rw [altp2m_flush] at h
    by_cases ha : d.altp2m_active = true
    · rw [if_pos ha] at h
      exact Option.noConfusion h
    · rw [if_neg ha, Option.map_eq_some'] at h
      obtain ⟨r, hr, heq⟩ := h
      have hd' : d' = { d with altp2m_p2m := r.1 } :=
        (congrArg Prod.fst heq).symm
      have htr : tr = r.2 := (congrArg Prod.snd heq).symm
      subst hd' htr
      constructor
      · intro i
        rw [slotAt]
        have hrep := flush_loop_slots d.altp2m_p2m 0 r.1 r.2 hr
        show ({ d with altp2m_p2m := r.1 }).altp2m_p2m.getD i none = none
        rw [hrep]
        exact getD_replicate_none d.altp2m_p2m.length i
      · intro i p hp
        have hsub := flush_loop_sublist d.altp2m_p2m 0 r.1 r.2 hr i p hp
        rw [Nat.zero_add] at hsub
        exact ⟨hsub.subset (by simp), hsub.subset (by simp)⟩

/-- Witness for C8 on the idle guest with both counters zero: flush
succeeds, and the theorem's consequences hold at that state. -/
theorem c8_flush_witness :
    ((altp2m_flush exIdle).isSome = true ↔
      (exIdle.altp2m_active = false ∧
        ∀ i < exIdle.altp2m_p2m.length, ∀ p, slotAt exIdle i = some p →
          p.active_vcpus = 0))
  ∧ (∀ (d' : Domain) (tr : List Ev), altp2m_flush exIdle = some (d', tr) →
      (∀ i, slotAt d' i = none) ∧
      (∀ (i : Nat) (p : P2mDomain), slotAt exIdle i = some p →
        Ev.teardown_view i ∈ tr ∧ Ev.free_view i ∈ tr)) :=
  c8_flush exIdle

/-! Equation lemmas for the pointer dereference helpers. -/

theorem atomic_add_at_eq (d : Domain) (v : Vcpu) (delta : Int) (i : Nat)
    (p : P2mDomain) (hi : v.ap2m_idx = some i) (hp : slotAt d i = some p) :
    atomic_add_at d v delta =
      some { d with altp2m_p2m := (d.altp2m_p2m.set i
        (some { p with active_vcpus := p.active_vcpus + delta })) } := by
  have hlt := slotAt_some_lt hp
  obtain ⟨vi⟩ := v
  have hvi : vi = some i := hi
  subst hvi
  simp [atomic_add_at, hlt, hp]

theorem atomic_add_at_none_unbound (d : Domain) (v : Vcpu) (delta : Int)
    (hi : v.ap2m_idx = none) : atomic_add_at d v delta = none := by
  obtain ⟨vi⟩ := v
  have hvi : vi = none := hi
  subst hvi
  simp [atomic_add_at]

theorem atomic_add_at_none_empty (d : Domain) (v : Vcpu) (delta : Int)
    (i : Nat) (hi : v.ap2m_idx = some i) (hp : slotAt d i = none) :
    atomic_add_at d v delta = none := by
  obtain ⟨vi⟩ := v
  have hvi : vi = some i := hi
  subst hvi
  by_cases hlt : i < d.altp2m_p2m.length
  · simp [atomic_add_at, hlt, hp]
  · simp [atomic_add_at, hlt]

theorem get_altp2m_eq_bound (d : Domain) (v : Vcpu) (i : Nat)
    (hi : v.ap2m_idx = some i) (hlt : i < d.altp2m_p2m.length) :
    altp2m_get_altp2m d v = some (slotAt d i) := by
  obtain ⟨vi⟩ := v
  have hvi : vi = some i := hi
  subst hvi
  simp [altp2m_get_altp2m, hlt]

/-- Internal: altp2m_vcpu_destroy on an unbound vcpu touches no
counter. -/
theorem vcpu_destroy_of_unbound (d : Domain) (v : Vcpu)
    (h : v.ap2m_idx = none) :
    altp2m_vcpu_destroy d v = some (d, altp2m_vcpu_reset v) := by
  unfold altp2m_vcpu_destroy altp2m_get_altp2m
  rw [h]

/-- C9. altp2m_vcpu_destroy leaves the vcpu unbound (ap2m_idx is the
INVALID sentinel); it decrements the bound view's counter exactly when
the vcpu was bound to an occupied slot, and changes nothing when
ap2m_idx is INVALID; and it is idempotent: a second application to the
resulting vcpu returns the same state. -/
theorem c9_vcpu_destroy (d : Domain) (v : Vcpu) :
    (v.ap2m_idx = none →
      altp2m_vcpu_destroy d v = some (d, altp2m_vcpu_reset v))
  ∧ (∀ (i : Nat) (p : P2mDomain), v.ap2m_idx = some i → slotAt d i = some p →
      ∃ d', altp2m_vcpu_destroy d v = some (d', altp2m_vcpu_reset v) ∧
        bindings d' i = bindings d i - 1 ∧
        (∀ j, j ≠ i → slotAt d' j = slotAt d j) ∧
        d'.vcpus = d.vcpus ∧ d'.altp2m_active = d.altp2m_active)
  ∧ (∀ r, altp2m_vcpu_destroy d v = some r →
      r.2.ap2m_idx = none ∧ altp2m_vcpu_destroy r.1 r.2 = some r) := by
  refine ⟨vcpu_destroy_of_unbound d v, ?_, ?_⟩
  · intro i p hi hp
    have hlt := slotAt_some_lt hp
    have hadd := atomic_add_at_eq d v (-1) i p hi hp
    have hget : altp2m_get_altp2m d v = some (some p) := by
      rw [get_altp2m_eq_bound d v i hi hlt, hp]
    refine ⟨{ d with altp2m_p2m := (d.altp2m_p2m.set i
      (some { p with active_vcpus := p.active_vcpus + (-1) })) },
      ?_, ?_, ?_, rfl, rfl⟩
    · simp only [altp2m_vcpu_destroy, hget, hadd, Option.map_some']
    · simp only [bindings, hp, slotAt_set_self d i _ hlt, Option.elim]
      omega
    · intro j hj
      exact slotAt_set_ne d _ (fun hij => hj hij.symm)
  · intro r h
    unfold altp2m_vcpu_destroy at h
    cases hg : altp2m_get_altp2m d v with
    | none => rw [hg] at h; exact Option.noConfusion h
    | some o =>
        cases o with
        | none =>
            rw [hg] at h
            have hr : r = (d, altp2m_vcpu_reset v) :=
              (Option.some.injEq .. ▸ h).symm
            subst hr
            exact ⟨rfl, vcpu_destroy_of_unbound d _ rfl⟩
        | some p =>
            rw [hg, Option.map_eq_some'] at h
            obtain ⟨d1, hd1, heq⟩ := h
            have hr : r = (d1, altp2m_vcpu_reset v) := heq.symm
            subst hr
            exact ⟨rfl, vcpu_destroy_of_unbound d1 _ rfl⟩

/-- Witness for C9: destroying the vcpu bound to busy slot 1 of exBusy
decrements that slot's counter and resets the binding. -/
theorem c9_vcpu_destroy_witness :
    ∃ d', altp2m_vcpu_destroy exBusy { ap2m_idx := some 1 } =
        some (d', altp2m_vcpu_reset { ap2m_idx := some 1 }) ∧
      bindings d' 1 = bindings exBusy 1 - 1 ∧
      (∀ j, j ≠ 1 → slotAt d' j = slotAt exBusy j) ∧
      d'.vcpus = exBusy.vcpus ∧ d'.altp2m_active = exBusy.altp2m_active :=
  (c9_vcpu_destroy exBusy { ap2m_idx := some 1 }).2.1 1
    { p2m_class_alternate := true, active_vcpus := 1 } rfl (by decide)

/-! Facts about the rebind loop of altp2m_switch_domain_altp2m_by_id. -/

theorem atomic_add_at_isSome (d : Domain) (v : Vcpu) (delta : Int) :
    (atomic_add_at d v delta).isSome = validBinding d v := by
  cases hvi : v.ap2m_idx with
  | none =>
      rw [atomic_add_at_none_unbound d v delta hvi]
      obtain ⟨vi⟩ := v
      have hvi' : vi = none := hvi
      subst hvi'
      simp [validBinding]
  | some j =>
      obtain ⟨vi⟩ := v
      have hvi' : vi = some j := hvi
      subst hvi'
      cases hs : slotAt d j with
      | none =>
          rw [atomic_add_at_none_empty d _ delta j rfl hs]
          simp [validBinding, hs]
      | some p =>
          rw [atomic_add_at_eq d _ delta j p rfl hs]
          simp [validBinding, hs]

theorem atomic_add_at_spec (d d' : Domain) (v : Vcpu) (delta : Int)
    (h : atomic_add_at d v delta = some d') :
    d'.vcpus = d.vcpus ∧ d'.altp2m_active = d.altp2m_active ∧
    d'.altp2m_p2m.length = d.altp2m_p2m.length ∧
    (∀ i, (slotAt d' i).isSome = (slotAt d i).isSome) ∧
    (∀ i, bindings d' i =
      bindings d i + (if v.ap2m_idx = some i then delta else 0)) := by
  cases hvi : v.ap2m_idx with
  | none =>
      rw [atomic_add_at_none_unbound d v delta hvi] at h
      exact Option.noConfusion h
  | some j =>
      cases hs : slotAt d j with
      | none =>
          rw [atomic_add_at_none_empty d v delta j hvi hs] at h
          exact Option.noConfusion h
      | some p =>
          have hlt := slotAt_some_lt hs
          rw [atomic_add_at_eq d v delta j p hvi hs] at h
          have hd' : d' = { d with altp2m_p2m := (d.altp2m_p2m.set j
              (some { p with active_vcpus := p.active_vcpus + delta })) } :=
            (Option.some.injEq .. ▸ h).symm
          subst hd'
          refine ⟨rfl, rfl, List.length_set .., ?_, ?_⟩
          · intro i
            by_cases hij : i = j
            · subst hij
              rw [slotAt_set_self d i _ hlt, hs]
              rfl
            · rw [slotAt_set_ne d _ (fun he => hij he.symm)]
          · intro i
            by_cases hij : i = j
            · subst hij
              rw [if_pos rfl]
              simp only [bindings, slotAt_set_self d i _ hlt, hs, Option.elim]
            · have hne : ¬((some j : Option Nat) = some i) := fun hc =>
                hij (Option.some.injEq .. ▸ hc).symm
              rw [if_neg hne, add_zero]
              simp only [bindings, slotAt_set_ne d _ (fun he => hij he.symm)]

theorem validBinding_congr (d d' : Domain) (w : Vcpu)
    (h : ∀ i, (slotAt d' i).isSome = (slotAt d i).isSome) :
    validBinding d' w = validBinding d w := by
  obtain ⟨wi⟩ := w
  cases wi with
  | none => simp [validBinding]
  | some j => simp [validBinding, h j]

theorem countP_add_not (p : Vcpu → Bool) (l : List Vcpu) :
    l.countP p + l.countP (fun a => !(p a)) = l.length := by
  induction l with
  | nil => simp
  | cons a l ih =>
      rw [List.countP_cons, List.countP_cons, List.length_cons]
      cases hpa : p a <;> simp [hpa] <;> omega

theorem switch_loop_spec :
    ∀ (vs : List Vcpu) (d : Domain) (vs' : List Vcpu) (d' : Domain) (idx : Nat),
      switch_loop idx vs d = some (vs', d') →
      vs' = vs.map (fun v => { v with ap2m_idx := some idx }) ∧
      d'.vcpus = d.vcpus ∧ d'.altp2m_active = d.altp2m_active ∧
      d'.altp2m_p2m.length = d.altp2m_p2m.length ∧
      (∀ i, (slotAt d' i).isSome = (slotAt d i).isSome) ∧
      (∀ i, bindings d' i = bindings d i +
        (if i = idx then (vs.countP (fun v => !(v.ap2m_idx == some idx)) : Int)
         else -(vs.countP (fun v => v.ap2m_idx == some i) : Int)))
  | [], d, vs', d', idx, h => by
      rw [switch_loop] at h
      have hv : vs' = [] := congrArg Prod.fst (Option.some.injEq .. ▸ h).symm
      have hd : d' = d := congrArg Prod.snd (Option.some.injEq .. ▸ h).symm
      subst hv hd
      refine ⟨rfl, rfl, rfl, rfl, fun i => rfl, fun i => ?_⟩
      by_cases hi : i = idx <;> simp [hi]
  | v :: vs, d, vs', d', idx, h => by
      by_cases hv : v.ap2m_idx = some idx
      · rw [switch_loop, if_pos hv, Option.map_eq_some'] at h
        obtain ⟨r, hr, heq⟩ := h
        have hvs' : vs' = v :: r.1 := (congrArg Prod.fst heq).symm
        have hd' : d' = r.2 := (congrArg Prod.snd heq).symm
        subst hvs' hd'
        obtain ⟨ih1, ih2, ih3, ih4, ih5, ih6⟩ :=
          switch_loop_spec vs d r.1 r.2 idx hr
        have hveq : { v with ap2m_idx := some idx } = v := by
          obtain ⟨vi⟩ := v
          have : vi = some idx := hv
          subst this
          rfl
        refine ⟨?_, ih2, ih3, ih4, ih5, ?_⟩
        · rw [List.map_cons, ih1, hveq]
        · intro i
          rw [ih6 i]
          by_cases hi : i = idx
          · subst hi
            rw [if_pos rfl, if_pos rfl, List.countP_cons]
            have hb : (!(v.ap2m_idx == some i)) = false := by simp [hv]
            rw [hb]
            have hf : ¬((false : Bool) = true) := by simp
            rw [if_neg hf]
            simp
          · rw [if_neg hi, if_neg hi, List.countP_cons]
            have hb : (v.ap2m_idx == some i) = false := by
              rw [hv]
              simp
              intro hc
              exact hi hc.symm
            rw [hb]
            have hf : ¬((false : Bool) = true) := by simp
            rw [if_neg hf]
            simp
      · cases ha1 : atomic_add_at d v (-1) with
        | none => simp [switch_loop, hv, ha1] at h
        | some d1 =>
            cases ha2 : atomic_add_at d1 { v with ap2m_idx := some idx } 1 with
            | none => simp [switch_loop, hv, ha1, ha2] at h
            | some d2 =>
                have hred : switch_loop idx (v :: vs) d =
                    (switch_loop idx vs d2).map
                      (fun r => ({ v with ap2m_idx := some idx } :: r.1, r.2)) := by
                  simp [switch_loop, hv, ha1, ha2]
                rw [hred, Option.map_eq_some'] at h
                obtain ⟨r, hr, heq⟩ := h
                have hvs' : vs' = { v with ap2m_idx := some idx } :: r.1 :=
                  (congrArg Prod.fst heq).symm
                have hd' : d' = r.2 := (congrArg Prod.snd heq).symm
                subst hvs' hd'
                obtain ⟨ih1, ih2, ih3, ih4, ih5, ih6⟩ :=
                  switch_loop_spec vs d2 r.1 r.2 idx hr
                obtain ⟨s11, s12, s13, s14, s15⟩ :=
                  atomic_add_at_spec d d1 v (-1) ha1
                obtain ⟨s21, s22, s23, s24, s25⟩ :=
                  atomic_add_at_spec d1 d2 { v with ap2m_idx := some idx } 1 ha2
                refine ⟨?_, ?_, ?_, ?_, ?_, ?_⟩
                · rw [List.map_cons, ih1]
                · rw [ih2, s21, s11]
                · rw [ih3, s22, s12]
                · rw [ih4, s23, s13]
                · intro i
                  rw [ih5 i, s24 i, s14 i]
                · intro i
                  by_cases hi : i = idx
                  · subst hi
                    have e1 : (if v.ap2m_idx = some i then (-1 : Int) else 0)
                        = 0 := if_neg hv
                    have e2 : (if ({ v with ap2m_idx := some i } : Vcpu).ap2m_idx
                        = some i then (1 : Int) else 0) = 1 := if_pos rfl
                    rw [ih6 i, s25 i, s15 i, e1, e2, if_pos rfl, if_pos rfl,
                      List.countP_cons]
                    have hb : (!(v.ap2m_idx == some i)) = true := by
                      simp [hv]
                    rw [hb, if_pos rfl]
                    push_cast
                    ring
                  · have e2 : (if ({ v with ap2m_idx := some idx } : Vcpu).ap2m_idx
                        = some i then (1 : Int) else 0) = 0 :=
                      if_neg (fun hc => hi (Option.some.injEq .. ▸ hc).symm)
                    rw [ih6 i, s25 i, s15 i, e2, if_neg hi, if_neg hi,
                      List.countP_cons]
                    by_cases hvm : v.ap2m_idx = some i
                    · have e1 : (if v.ap2m_idx = some i then (-1 : Int) else 0)
                          = -1 := if_pos hvm
                      have hb : (v.ap2m_idx == some i) = true := by simp [hvm]
                      rw [e1, hb, if_pos rfl]
                      push_cast
                      ring
                    · have e1 : (if v.ap2m_idx = some i then (-1 : Int) else 0)
                          = 0 := if_neg hvm
                      have hb : (v.ap2m_idx == some i) = false := by
                        simp [hvm]
                      have hf : ¬((false : Bool) = true) := by simp
                      rw [e1, hb, if_neg hf]
                      push_cast
                      ring

theorem switch_loop_isSome :
    ∀ (vs : List Vcpu) (d : Domain) (idx : Nat),
      (slotAt d idx).isSome = true →
      ((switch_loop idx vs d).isSome = true ↔
        ∀ v ∈ vs, validBinding d v = true)
  | [], d, idx, hocc => by simp [switch_loop]
  | v :: vs, d, idx, hocc => by
      by_cases hv : v.ap2m_idx = some idx
      · rw [switch_loop, if_pos hv, Option.isSome_map',
          switch_loop_isSome vs d idx hocc, List.forall_mem_cons]
        have hbv : validBinding d v = true := by
          obtain ⟨vi⟩ := v
          have : vi = some idx := hv
          subst this
          simp [validBinding, hocc]
        simp [hbv]
      · by_cases hb : validBinding d v = true
        · have h1 : (atomic_add_at d v (-1)).isSome = true := by
            rw [atomic_add_at_isSome]; exact hb
          obtain ⟨d1, hd1⟩ := Option.isSome_iff_exists.mp h1
          obtain ⟨s11, s12, s13, s14, s15⟩ := atomic_add_at_spec d d1 v (-1) hd1
          have hocc1 : (slotAt d1 idx).isSome = true := by rw [s14 idx]; exact hocc
          have h2 : (atomic_add_at d1 { v with ap2m_idx := some idx } 1).isSome
              = true := by
            rw [atomic_add_at_isSome]
            simp [validBinding, hocc1]
          obtain ⟨d2, hd2⟩ := Option.isSome_iff_exists.mp h2
          obtain ⟨s21, s22, s23, s24, s25⟩ :=
            atomic_add_at_spec d1 d2 { v with ap2m_idx := some idx } 1 hd2
          have hred : switch_loop idx (v :: vs) d =
              (switch_loop idx vs d2).map
                (fun r => ({ v with ap2m_idx := some idx } :: r.1, r.2)) := by
            simp [switch_loop, hv, hd1, hd2]
          have hocc2 : (slotAt d2 idx).isSome = true := by
            rw [s24 idx]; exact hocc1
          rw [hred, Option.isSome_map', switch_loop_isSome vs d2 idx hocc2,
            List.forall_mem_cons]
          have hcongr : ∀ w, validBinding d2 w = validBinding d w := by
            intro w
            rw [validBinding_congr d1 d2 w s24, validBinding_congr d d1 w s14]
          constructor
          · intro h
            exact ⟨hb, fun w hw => (hcongr w) ▸ h w hw⟩
          · intro h w hw
            rw [hcongr w]
            exact h.2 w hw
        · have h1 : atomic_add_at d v (-1) = none := by
            have := atomic_add_at_isSome d v (-1)
            rw [Bool.not_eq_true] at hb
            rw [hb] at this
            exact Option.not_isSome_iff_eq_none.mp (by rw [this]; simp)
          have hred : switch_loop idx (v :: vs) d = none := by
            simp [switch_loop, hv, h1]
          rw [hred, List.forall_mem_cons]
          simp [hb]

/-- Guest with two occupied slots and one vcpu left unbound (as
altp2m_vcpu_destroy leaves it). -/
def exUnbound : Domain :=
  { altp2m_p2m := [some viewZero, some viewZero],
    altp2m_active := true,
    vcpus := [{ ap2m_idx := none }] }

/-- Guest with two vcpus bound to slot 0 and an empty alternate view
in slot 1; invariant I2 holds. -/
def exSwitchPre : Domain :=
  { altp2m_p2m := [some viewTwo, some viewZero],
    altp2m_active := true,
    vcpus := [{ ap2m_idx := some 0 }, { ap2m_idx := some 0 }] }

/-- The state of exSwitchPre after a successful switch to slot 1. -/
def exSwitchPost : Domain :=
  { altp2m_p2m := [some viewZero, some viewTwo],
    altp2m_active := true,
    vcpus := [{ ap2m_idx := some 1 }, { ap2m_idx := some 1 }] }

/-- C10. In the rebind loop of altp2m_switch_domain_altp2m_by_id, the
value of altp2m_get_altp2m(v) is dereferenced without a NULL check.
Once the target-slot guard has passed, the call completes (rather than
hitting the empty branch of the lookup) exactly when every vcpu of the
guest carries a valid binding: an ap2m_idx that is a real index of an
occupied slot. A vcpu left unbound, as altp2m_vcpu_destroy leaves it,
falsifies that precondition and makes the loop dereference NULL. -/
theorem c10_switch_crash_precondition (d : Domain) (idx : Nat)
    (h1 : idx < d.altp2m_p2m.length) (h2 : (slotAt d idx).isSome = true) :
    (altp2m_switch_domain_altp2m_by_id d idx).isSome = true ↔
      ∀ v ∈ d.vcpus, validBinding d v = true := by
  obtain ⟨p, hp⟩ := Option.isSome_iff_exists.mp h2
  have hred : altp2m_switch_domain_altp2m_by_id d idx =
      (switch_loop idx d.vcpus d).map (fun r => (0, { r.2 with vcpus := r.1 })) := by
    simp [altp2m_switch_domain_altp2m_by_id, Nat.not_le.mpr h1, hp]
  rw [hred, Option.isSome_map']
  exact switch_loop_isSome d.vcpus d idx h2

/-- Witness for C10 on a guest with an unbound vcpu and an occupied
target slot: both sides of the equivalence are false there, i.e. the
rebind loop hits the NULL dereference. -/
theorem c10_switch_crash_precondition_witness :
    (altp2m_switch_domain_altp2m_by_id exUnbound 1).isSome = true ↔
      ∀ v ∈ exUnbound.vcpus, validBinding exUnbound v = true :=
  c10_switch_crash_precondition exUnbound 1 (by decide) (by decide)

/-- C1. When altp2m_switch_domain_altp2m_by_id returns success in a
state satisfying I2, every vcpu of the guest ends bound to the target
index, the target view's active_vcpus equals the guest's vcpu count,
every other occupied slot's counter has dropped by the number of vcpus
that were bound to it, and I2 holds in the resulting state. -/
theorem c1_switch_success (d : Domain) (idx : Nat) (d' : Domain)
    (hI2 : I2 d)
    (h : altp2m_switch_domain_altp2m_by_id d idx = some (0, d')) :
    (∀ v ∈ d'.vcpus, v.ap2m_idx = some idx)
  ∧ bindings d' idx = (d.vcpus.length : Int)
  ∧ (∀ i, i ≠ idx → ∀ p, slotAt d i = some p →
      bindings d' i = bindings d i - (vcpusOn d i : Int))
  ∧ I2 d' := by
  by_cases hlen : d.altp2m_p2m.length ≤ idx
  · rw [altp2m_switch_domain_altp2m_by_id, if_pos hlen] at h
    have hc : (-EINVAL : Int) = 0 :=
      congrArg Prod.fst (Option.some.injEq .. ▸ h)
    norm_num [EINVAL] at hc
  · have hlt : idx < d.altp2m_p2m.length := Nat.not_le.mp hlen
    cases hp : slotAt d idx with
    | none =>
        have hred : altp2m_switch_domain_altp2m_by_id d idx =
            some (-EINVAL, d) := by
          simp [altp2m_switch_domain_altp2m_by_id, hlen, hp]
        rw [hred] at h
        have hc : (-EINVAL : Int) = 0 :=
          congrArg Prod.fst (Option.some.injEq .. ▸ h)
        norm_num [EINVAL] at hc
    | some p =>
        have hred : altp2m_switch_domain_altp2m_by_id d idx =
            (switch_loop idx d.vcpus d).map
              (fun r => (0, { r.2 with vcpus := r.1 })) := by
          simp [altp2m_switch_domain_altp2m_by_id, hlen, hp]
        rw [hred, Option.map_eq_some'] at h
        obtain ⟨r, hr, heq⟩ := h
        have hd' : d' = { r.2 with vcpus := r.1 } :=
          (congrArg Prod.snd heq).symm
        subst hd'
        obtain ⟨m1, m2, m3, m4, m5, m6⟩ :=
          switch_loop_spec d.vcpus d r.1 r.2 idx hr
        have hocc : (slotAt d idx).isSome = true := by rw [hp]; rfl
        have hI2x : (vcpusOn d idx : Int) = bindings d idx :=
          hI2 idx hlt hocc
        have hcnt := countP_add_not
          (fun v => (v.ap2m_idx == some idx)) d.vcpus
        have hbtgt : bindings { r.2 with vcpus := r.1 } idx =
            (d.vcpus.length : Int) := by
          show bindings r.2 idx = (d.vcpus.length : Int)
          rw [m6 idx, if_pos rfl]
          simp only [vcpusOn] at hI2x
          omega
        refine ⟨?_, hbtgt, ?_, ?_⟩
        · intro v hv
          have hv' : v ∈ r.1 := hv
          rw [m1] at hv'
          obtain ⟨w, hw, hweq⟩ := List.mem_map.mp hv'
          rw [← hweq]
        · intro i hi p' hp'
          show bindings r.2 i = bindings d i - (vcpusOn d i : Int)
          rw [m6 i, if_neg hi]
          simp only [vcpusOn]
          ring
        · intro i hilen hiocc
          have hiocc' : (slotAt r.2 i).isSome = true := hiocc
          have hilen' : i < d.altp2m_p2m.length := by
            have : i < r.2.altp2m_p2m.length := hilen
            rwa [m4] at this
          have hdocc : (slotAt d i).isSome = true := by
            rw [← m5 i]
            exact hiocc'
          by_cases hix : i = idx
          · subst hix
            have hvc : vcpusOn { r.2 with vcpus := r.1 } i =
                d.vcpus.length := by
              show r.1.countP (fun v => v.ap2m_idx == some i) = d.vcpus.length
              rw [m1, List.countP_map]
              refine List.countP_eq_length.mpr (fun a _ => ?_)
              simp [Function.comp]
            rw [hvc]
            exact hbtgt.symm
          · have hvc : vcpusOn { r.2 with vcpus := r.1 } i = 0 := by
              show r.1.countP (fun v => v.ap2m_idx == some i) = 0
              rw [m1, List.countP_map]
              refine List.countP_eq_zero.mpr (fun a _ => ?_)
              simp [Function.comp]
              intro hc
              exact hix hc.symm
            have hI2i : (vcpusOn d i : Int) = bindings d i :=
              hI2 i hilen' hdocc
            have hbi : bindings { r.2 with vcpus := r.1 } i =
                bindings d i - (vcpusOn d i : Int) := by
              show bindings r.2 i = bindings d i - (vcpusOn d i : Int)
              rw [m6 i, if_neg hix]
              simp only [vcpusOn]
              ring
            rw [hvc, hbi]
            omega

/-- Witness for C1 on the two-vcpu guest of the specification's
scenario: switching to slot 1 moves both vcpus and both counters. -/
theorem c1_switch_success_witness :
    (∀ v ∈ exSwitchPost.vcpus, v.ap2m_idx = some 1)
  ∧ bindings exSwitchPost 1 = (exSwitchPre.vcpus.length : Int)
  ∧ (∀ i, i ≠ 1 → ∀ p, slotAt exSwitchPre i = some p →
      bindings exSwitchPost i = bindings exSwitchPre i -
        (vcpusOn exSwitchPre i : Int))
  ∧ I2 exSwitchPost :=
  c1_switch_success exSwitchPre 1 exSwitchPost (by decide) (by decide)

end AltP2M
